import Mathlib

/-!
Shallow embedding of the recipe-app backend (Django/DRF project under
`app/`): the data model (`core.models`), the recipe/tag/ingredient
viewsets (`app/recipe/views.py`), the serializers
(`app/recipe/serializers.py`), and the user/token endpoints
(`app/user/views.py`).

Relational state is modelled as explicit lists of rows; HTTP request
handlers become pure functions from a database state and the id of the
authenticated user to a status code, a response value and the new
database state.  Machine-level concerns (SQL, sockets, file storage
bytes) are abstracted; the control flow and the data transformations
follow the Python source line by line.  Pieces of the repository that
are referenced but not present in the source tree (the nested
tag/ingredient serializer fields, `IngredientSerializer`,
`RecipeImageSerializer`, `app/user/serializers.py`) are modelled from
the specification and marked as such in their doc comments.
-/

namespace RecipeApp

/-- A Tag or Ingredient row (`core.models.Tag` / `core.models.Ingredient`):
both models have an autoincrement primary key, an owning user and a name
(see `core/tests/test_models.py` and `recipe/tests`). -/
structure OwnedName where
  id : Nat
  user : Nat
  name : String
  deriving DecidableEq

/-- One of the two attribute tables (the `Tag` table or the `Ingredient`
table) together with its autoincrement counter. -/
structure AttrTable where
  rows : List OwnedName
  nextId : Nat
  deriving DecidableEq

/-- A `core.models.Recipe` row: owning user, scalar columns, optional
image file path, and the two many-to-many association sets stored as
lists of Tag / Ingredient primary keys. -/
structure Recipe where
  id : Nat
  user : Nat
  title : String
  time_in_min : Nat
  price : Rat
  description : String
  link : String
  image : Option String
  tags : List Nat
  ingredients : List Nat
  deriving DecidableEq

/-- A user row, as far as token issuance needs it: unique email and the
stored password hash. -/
structure UserRow where
  email : String
  passwordHash : String
  deriving DecidableEq

/-- The whole relational store. -/
structure DB where
  users : List UserRow
  recipes : List Recipe
  nextRecipeId : Nat
  tagTable : AttrTable
  ingTable : AttrTable
  deriving DecidableEq

/-! ### Ordering (`order_by`)

`List.mergeSort` is defined by well-founded recursion and does not
reduce definitionally, so `order_by` is embedded as a structural
insertion sort; only the sortedness and permutation properties matter. -/

/-- Insert `a` in front of the first element it is `le`-below. -/
def insertLe {α : Type} (le : α → α → Bool) (a : α) : List α → List α
  | [] => [a]
  | b :: bs => if le a b then a :: b :: bs else b :: insertLe le a bs

/-- Structural insertion sort by the boolean relation `le`. -/
def sortBy {α : Type} (le : α → α → Bool) : List α → List α
  | [] => []
  | a :: as => insertLe le a (sortBy le as)

/-! ### Serializer field model

`RecipeSerializer.Meta` (src/app/recipe/serializers.py:13-16) lists the
writable fields; a request payload is a list of (field, value) pairs and
validation keeps exactly the entries whose field is writable, which is
how DRF drops an `owner`/`user` key supplied in the body. -/

/-- The payload-addressable attributes of a recipe. -/
inductive Field
  | title
  | time_in_min
  | price
  | description
  | link
  | user
  | tags
  | ingredients
  deriving DecidableEq

/-- A JSON value as the serializers see it. -/
inductive Value
  | str (s : String)
  | nat (n : Nat)
  | rat (q : Rat)
  | uid (u : Nat)
  | names (l : List String)
  | ids (l : List Nat)
  deriving DecidableEq

/-- A request body: ordered field/value pairs. -/
abbrev Payload := List (Field × Value)

/-- The writable scalar fields of the write serializer
(`RecipeDetailSerializer`: fields `id, title, time_in_min, price, link`
plus `description`, read-only fields `id`,
src/app/recipe/serializers.py:13-23).  `user` is absent: the owner is
never writable from the body. -/
def detailWritableScalars : List Field :=
  [Field.title, Field.time_in_min, Field.price, Field.link, Field.description]

/-- Set one scalar attribute on the model instance, as
`ModelSerializer.update` does per validated item.  The `user` case
exists because the model instance does have a settable owner column;
validation (the field list) is what keeps it out of reach. -/
def applyField (r : Recipe) (e : Field × Value) : Recipe :=
  match e.1, e.2 with
  | Field.title, Value.str s => { r with title := s }
  | Field.description, Value.str s => { r with description := s }
  | Field.link, Value.str s => { r with link := s }
  | Field.time_in_min, Value.nat n => { r with time_in_min := n }
  | Field.price, Value.rat q => { r with price := q }
  | Field.user, Value.uid x => { r with user := x }
  | _, _ => r

/-- Apply the validated scalar entries of a payload: entries whose field
is not writable are dropped by validation, the rest are set in order. -/
def scalarApply (r : Recipe) (p : Payload) : Recipe :=
  (p.filter (fun e => detailWritableScalars.contains e.1)).foldl applyField r

/-- The nested `tags` list of a payload, when present and well-formed. -/
def payloadTags (p : Payload) : Option (List String) :=
  match p.find? (fun e => e.1 == Field.tags) with
  | some (_, Value.names l) => some l
  | _ => none

/-- The nested `ingredients` list of a payload, when present and
well-formed. -/
def payloadIngredients (p : Payload) : Option (List String) :=
  match p.find? (fun e => e.1 == Field.ingredients) with
  | some (_, Value.names l) => some l
  | _ => none

/-! ### Nested get-or-create

Modelled from the spec: the serializer classes that implement the nested
writes are referenced by src/app/recipe/views.py (it imports
`IngredientSerializer` and `RecipeImageSerializer`) and exercised by
src/app/recipe/tests/test_recipe_api.py, but
src/app/recipe/serializers.py does not contain them — that part of the
repository is missing from the source tree.  Spec §4.2: for each, look
up an existing Tag/Ingredient owned by the current user with that name;
if absent, create it; then set the association set of the recipe to
exactly that list (full replace, not merge). -/

/-- Modelled from the spec: `get_or_create(user=..., name=...)` on the
Tag / Ingredient table — return the first row matching owner and name,
else append a fresh row. -/
def getOrCreateAttr (tbl : AttrTable) (u : Nat) (n : String) : AttrTable × Nat :=
  match tbl.rows.find? (fun t => t.user == u && t.name == n) with
  | some t => (tbl, t.id)
  | none =>
    ({ rows := tbl.rows ++ [⟨tbl.nextId, u, n⟩], nextId := tbl.nextId + 1 }, tbl.nextId)

/-- Modelled from the spec: resolve a list of names left to right,
get-or-creating each and collecting the row ids in order. -/
def resolveAttrs (tbl : AttrTable) (u : Nat) : List String → AttrTable × List Nat
  | [] => (tbl, [])
  | n :: ns =>
    ((resolveAttrs (getOrCreateAttr tbl u n).1 u ns).1,
     (getOrCreateAttr tbl u n).2 :: (resolveAttrs (getOrCreateAttr tbl u n).1 u ns).2)

/-- Modelled from the spec: when the payload carries a `tags` list the
names are resolved and the tag set of the recipe is replaced by exactly
the resolved ids (an M2M set operation: duplicates collapse). -/
def applyTagsStep (db : DB) (u : Nat) (r : Recipe) (p : Payload) : DB × Recipe :=
  match payloadTags p with
  | some l =>
    ({ db with tagTable := (resolveAttrs db.tagTable u l).1 },
     { r with tags := (resolveAttrs db.tagTable u l).2.dedup })
  | none => (db, r)

/-- Modelled from the spec: the `ingredients` counterpart of
`applyTagsStep`. -/
def applyIngredientsStep (db : DB) (u : Nat) (r : Recipe) (p : Payload) : DB × Recipe :=
  match payloadIngredients p with
  | some l =>
    ({ db with ingTable := (resolveAttrs db.ingTable u l).1 },
     { r with ingredients := (resolveAttrs db.ingTable u l).2.dedup })
  | none => (db, r)

/-- The serializer write path shared by create and update: pop the
nested lists, resolve them, then set the validated scalar fields. -/
def applyValidated (db : DB) (u : Nat) (r : Recipe) (p : Payload) : DB × Recipe :=
  ((applyIngredientsStep (applyTagsStep db u r p).1 u (applyTagsStep db u r p).2 p).1,
   scalarApply
     (applyIngredientsStep (applyTagsStep db u r p).1 u (applyTagsStep db u r p).2 p).2
     p)

/-- A blank recipe row for `create`; `perform_create`
(src/app/recipe/views.py:41-43) saves with `user=self.request.user`, so
the owner starts — and stays — as the authenticated requester. -/
def blankRecipe (i u : Nat) : Recipe :=
  { id := i, user := u, title := "", time_in_min := 0, price := 0,
    description := "", link := "", image := none, tags := [], ingredients := [] }

/-- Create endpoint, `POST /recipe/receipe/`: build the new row owned by the requester,
run the serializer write path, append the row. -/
def recipeCreate (db : DB) (u : Nat) (p : Payload) : DB × Recipe :=
  ({ (applyValidated db u (blankRecipe db.nextRecipeId u) p).1 with
      recipes := (applyValidated db u (blankRecipe db.nextRecipeId u) p).1.recipes
        ++ [(applyValidated db u (blankRecipe db.nextRecipeId u) p).2],
      nextRecipeId := db.nextRecipeId + 1 },
   (applyValidated db u (blankRecipe db.nextRecipeId u) p).2)

/-! ### Recipe viewset (src/app/recipe/views.py:21-55) -/

/-- Queryset of `RecipeViewSet.get_queryset` (src/app/recipe/views.py:28-30):
recipes of the authenticated user, ordered by descending id. -/
def recipeQueryset (db : DB) (u : Nat) : List Recipe :=
  sortBy (fun a b => decide (b.id ≤ a.id)) (db.recipes.filter (fun r => r.user == u))

/-- The shallow list serializer output (`RecipeSerializer`,
src/app/recipe/serializers.py:10-16): id, title, time_in_min, price,
link — no description. -/
structure RecipeListItem where
  id : Nat
  title : String
  time_in_min : Nat
  price : Rat
  link : String
  deriving DecidableEq

/-- Render one recipe with the shallow serializer. -/
def toListItem (r : Recipe) : RecipeListItem :=
  { id := r.id, title := r.title, time_in_min := r.time_in_min,
    price := r.price, link := r.link }

/-- List endpoint, `GET /recipe/receipe/`: the list action uses `RecipeSerializer`
(`get_serializer_class`, src/app/recipe/views.py:32-39) over the user
queryset. -/
def recipeListResponse (db : DB) (u : Nat) : List RecipeListItem :=
  (recipeQueryset db u).map toListItem

/-- DRF `get_object`: look the pk up inside the user-filtered queryset
(ordering cannot matter for a unique pk and is omitted); `none` becomes
a 404. -/
def recipeGetObject (db : DB) (u i : Nat) : Option Recipe :=
  (db.recipes.filter (fun r => r.user == u)).find? (fun r => r.id == i)

/-- Retrieve endpoint, `GET /recipe/receipe/{id}/`. -/
def recipeRetrieveRequest (db : DB) (u i : Nat) : Except Nat Recipe :=
  match recipeGetObject db u i with
  | some r => Except.ok r
  | none => Except.error 404

/-- Update endpoint, `PATCH /recipe/receipe/{id}/`: find in the scoped queryset, run the
serializer write path, store the row back. -/
def recipeUpdateRequest (db : DB) (u i : Nat) (p : Payload) : Nat × DB :=
  match recipeGetObject db u i with
  | some r =>
    (200,
     { (applyValidated db u r p).1 with
        recipes := (applyValidated db u r p).1.recipes.map
          (fun x => if x.id == r.id then (applyValidated db u r p).2 else x) })
  | none => (404, db)

/-- Delete endpoint, `DELETE /recipe/receipe/{id}/`. -/
def recipeDestroyRequest (db : DB) (u i : Nat) : Nat × DB :=
  match recipeGetObject db u i with
  | some r => (204, { db with recipes := db.recipes.filter (fun x => !(x.id == r.id)) })
  | none => (404, db)

/-! ### Tag / Ingredient viewsets (src/app/recipe/views.py:58-82) -/

/-- Output of `TagSerializer` / `IngredientSerializer`: id and name. -/
structure AttrItem where
  id : Nat
  name : String
  deriving DecidableEq

/-- Render one tag/ingredient row. -/
def toAttrItem (t : OwnedName) : AttrItem :=
  { id := t.id, name := t.name }

/-- Queryset of `BaseRecipeAttrViewSet.get_queryset`
(src/app/recipe/views.py:67-69): filter to the authenticated user, order
by descending name.  The method reads no query parameter — the
`assigned_only` flag of a request is ignored. -/
def attrQueryset (tbl : AttrTable) (u : Nat) (_assigned_only : Bool) : List OwnedName :=
  sortBy (fun a b => decide (b.name ≤ a.name)) (tbl.rows.filter (fun t => t.user == u))

/-- List endpoint `GET /recipe/tag/` (`?assigned_only=` as the flag argument). -/
def tagListResponse (db : DB) (u : Nat) (assigned_only : Bool) : List AttrItem :=
  (attrQueryset db.tagTable u assigned_only).map toAttrItem

/-- List endpoint `GET /recipe/ingredient/` (`?assigned_only=` as the flag argument). -/
def ingredientListResponse (db : DB) (u : Nat) (assigned_only : Bool) : List AttrItem :=
  (attrQueryset db.ingTable u assigned_only).map toAttrItem

/-- Lookup `get_object` on the attribute viewsets. -/
def attrGetObject (tbl : AttrTable) (u i : Nat) : Option OwnedName :=
  (tbl.rows.filter (fun t => t.user == u)).find? (fun t => t.id == i)

/-- Update endpoint `PATCH /recipe/tag/{id}/` or `.../ingredient/{id}/`: rename. -/
def attrUpdateRequest (tbl : AttrTable) (u i : Nat) (nm : String) : Nat × AttrTable :=
  match attrGetObject tbl u i with
  | some t =>
    (200,
     { tbl with
        rows := tbl.rows.map (fun x => if x.id == t.id then { x with name := nm } else x) })
  | none => (404, tbl)

/-- Delete endpoint `DELETE /recipe/tag/{id}/` or `.../ingredient/{id}/`. -/
def attrDestroyRequest (tbl : AttrTable) (u i : Nat) : Nat × AttrTable :=
  match attrGetObject tbl u i with
  | some t => (204, { tbl with rows := tbl.rows.filter (fun x => !(x.id == t.id)) })
  | none => (404, tbl)

/-- Detail endpoint `GET /recipe/tag/{id}/` or `.../ingredient/{id}/`:
`BaseRecipeAttrViewSet` mixes in only Destroy/Update/List
(src/app/recipe/views.py:58-62), so the router binds no handler for GET
on the detail route and the dispatcher answers 405 Method Not Allowed
before any object lookup, for every id and owner. -/
def attrRetrieveRequest (_tbl : AttrTable) (_u _i : Nat) : Except Nat OwnedName :=
  Except.error 405

/-! ### Image upload (src/app/recipe/views.py:45-55)

The upload handler itself is in the source; the serializer it uses is
not (`RecipeImageSerializer` is imported but absent from
src/app/recipe/serializers.py), so validation and the stored path are
modelled from the spec: accepts a single image file, rejects non-image
payloads with a validation error, and returns the accessible path of
the stored file on success (spec §4.2). -/

/-- An uploaded file: its name and whether it parses as an image. -/
structure ImageFile where
  name : String
  is_image : Bool
  deriving DecidableEq

/-- Modelled from the spec: `RecipeImageSerializer.is_valid()` — the
payload must be a valid image. -/
def imagePayloadValid (f : ImageFile) : Bool :=
  f.is_image

/-- Modelled from the spec: the accessible path under which the file
field of the framework stores the upload. -/
def storedImagePath (f : ImageFile) : String :=
  "/media/uploads/recipe/" ++ f.name

/-- Upload endpoint `POST /recipe/receipe/{id}/upload-image/` (`upload_image`,
src/app/recipe/views.py:45-55): `get_object`, validate, save and answer
200 with the serializer data (which carries the stored path), else 400
with the errors and no save. -/
def uploadImageRequest (db : DB) (u i : Nat) (f : ImageFile) : Nat × Option String × DB :=
  match recipeGetObject db u i with
  | some r =>
    if imagePayloadValid f then
      (200, some (storedImagePath f),
       { db with
          recipes := db.recipes.map
            (fun x => if x.id == r.id then { x with image := some (storedImagePath f) } else x) })
    else (400, none, db)
  | none => (404, none, db)

/-! ### Token issuance (src/app/user/views.py:21-24)

`AuthTokenView` delegates to `AuthTokenSerializer`, which lives in
`app/user/serializers.py` — a file absent from the source tree — so the
serializer is modelled from the spec: "validates email+password against
stored hash; returns an opaque bearer token on success, else a
validation error; blank password is rejected before lookup" (spec §4.1). -/

/-- Modelled from the spec: password hashing is delegated to the
framework; an injective tagging function stands in for the hash. -/
def hashPassword (pw : String) : String :=
  "pbkdf2-sha256$" ++ pw

/-- Modelled from the spec: `POST /user/token/`.  A blank password is a
field-level validation error raised before any user lookup; otherwise
the user is looked up by email and the password checked against the
stored hash; every failure is a 400 with no token. -/
def createTokenRequest (db : DB) (email pw : String) : Except Nat String :=
  if pw = "" then Except.error 400
  else
    match db.users.find? (fun us => us.email == email) with
    | some us =>
      if us.passwordHash == hashPassword pw then Except.ok ("token:" ++ us.email)
      else Except.error 400
    | none => Except.error 400

/-! ### Invariants and observation helpers -/

/-- No two rows of an attribute table share owner and name (get-or-create
keeps this; spec §3: "name scoped per user"). -/
def UniqNames (tbl : AttrTable) : Prop :=
  tbl.rows.Pairwise (fun a b => ¬(a.user = b.user ∧ a.name = b.name))

/-- Recipe primary keys are unique. -/
def UniqRecipeIds (db : DB) : Prop :=
  db.recipes.Pairwise (fun a b => a.id ≠ b.id)

/-- Attribute-row primary keys are unique. -/
def UniqAttrIds (tbl : AttrTable) : Prop :=
  tbl.rows.Pairwise (fun a b => a.id ≠ b.id)

/-- User emails are unique (spec §3). -/
def UniqEmails (db : DB) : Prop :=
  db.users.Pairwise (fun a b => a.email ≠ b.email)

instance (tbl : AttrTable) : Decidable (UniqNames tbl) :=
  inferInstanceAs
    (Decidable
      (tbl.rows.Pairwise (fun a b : OwnedName => ¬(a.user = b.user ∧ a.name = b.name))))

instance (db : DB) : Decidable (UniqRecipeIds db) :=
  inferInstanceAs (Decidable (db.recipes.Pairwise (fun a b : Recipe => a.id ≠ b.id)))

instance (tbl : AttrTable) : Decidable (UniqAttrIds tbl) :=
  inferInstanceAs (Decidable (tbl.rows.Pairwise (fun a b : OwnedName => a.id ≠ b.id)))

instance (db : DB) : Decidable (UniqEmails db) :=
  inferInstanceAs (Decidable (db.users.Pairwise (fun a b : UserRow => a.email ≠ b.email)))

/-- Read one payload-addressable attribute of a recipe row. -/
def getField (r : Recipe) : Field → Value
  | Field.title => Value.str r.title
  | Field.time_in_min => Value.nat r.time_in_min
  | Field.price => Value.rat r.price
  | Field.description => Value.str r.description
  | Field.link => Value.str r.link
  | Field.user => Value.uid r.user
  | Field.tags => Value.ids r.tags
  | Field.ingredients => Value.ids r.ingredients

/-- The resolution contract of a nested `tags`/`ingredients` write, from
table `old` to table `new` for owner `u` and name list `l`: existing
rows survive, every name ends up owned by `u`, rows are created only for
names that had no owner-scoped match, and no duplicate (owner, name)
pair ever appears. -/
def AttrsResolved (old new : AttrTable) (u : Nat) (l : List String) : Prop :=
  (∀ t ∈ old.rows, t ∈ new.rows)
  ∧ (∀ n ∈ l, ∃ t ∈ new.rows, t.user = u ∧ t.name = n)
  ∧ (∀ t' ∈ new.rows, t' ∉ old.rows →
      t'.user = u ∧ t'.name ∈ l ∧ ∀ t ∈ old.rows, ¬(t.user = u ∧ t.name = t'.name))
  ∧ UniqNames new

/-! ### Concrete sample states for the closed instance theorems -/

/-- An empty store. -/
def emptyDB : DB :=
  { users := [], recipes := [], nextRecipeId := 1,
    tagTable := { rows := [], nextId := 1 },
    ingTable := { rows := [], nextId := 1 } }

/-- A sample recipe row owned by user 1. -/
def sampleRecipe : Recipe :=
  { id := 10, user := 1, title := "Sample Recipe", time_in_min := 5, price := 5,
    description := "This is a sample recipe", link := "http://example.com/sample-recipe.pdf",
    image := none, tags := [], ingredients := [] }

/-- A sample recipe row owned by user 2. -/
def otherUserRecipe : Recipe :=
  { id := 11, user := 2, title := "Other", time_in_min := 7, price := 3,
    description := "", link := "", image := none, tags := [], ingredients := [] }

/-- Store for the nested-write instances: user 1 already owns the tag
`indian` and the ingredient `Lemon`. -/
def nestedDB : DB :=
  { users := [], recipes := [sampleRecipe], nextRecipeId := 12,
    tagTable := { rows := [⟨1, 1, "indian"⟩], nextId := 2 },
    ingTable := { rows := [⟨1, 1, "Lemon"⟩], nextId := 2 } }

/-- Payload of `test_create_recipe_with_existing_tag`: one existing and
one new tag name. -/
def nestedPayload : Payload :=
  [(Field.title, Value.str ("Pongal")),
   (Field.time_in_min, Value.nat 60),
   (Field.tags, Value.names ["indian", "breakfast"]),
   (Field.ingredients, Value.names ["Lemon", "Fish Sauce"])]

/-- Store for the cross-user instances: user 2 owns recipe 11 and tag 7. -/
def crossDB : DB :=
  { users := [], recipes := [sampleRecipe, otherUserRecipe], nextRecipeId := 12,
    tagTable := { rows := [⟨7, 2, "breakfast"⟩], nextId := 8 },
    ingTable := { rows := [], nextId := 1 } }

/-- Store for the assigned-only instance: user 1 owns ingredient 1
(`Apple`, attached to the only recipe) and ingredient 2 (`Turkey`,
attached to nothing). -/
def assignedDB : DB :=
  { users := [],
    recipes := [{ sampleRecipe with title := "Apple Crumble", ingredients := [1] }],
    nextRecipeId := 12,
    tagTable := { rows := [], nextId := 1 },
    ingTable := { rows := [⟨1, 1, "Apple"⟩, ⟨2, 1, "Turkey"⟩], nextId := 3 } }

/-- Store for the token instance: one registered user. -/
def tokenDB : DB :=
  { emptyDB with
    users := [{ email := "test@example.com", passwordHash := hashPassword ("testpassword123") }] }

/-- A recipe that already carries tag 1 and ingredient 1, for the
full-replace instance. -/
def taggedRecipe : Recipe :=
  { sampleRecipe with tags := [1], ingredients := [1] }

/-- The payload of `test_clear_recipe_tags` / `test_clear_recipe_ingredients`:
both nested lists present and empty. -/
def clearPayload : Payload :=
  [(Field.tags, Value.names []), (Field.ingredients, Value.names [])]

/-- The payload of `test_partial_update`: only the title is supplied. -/
def patchPayload : Payload :=
  [(Field.title, Value.str ("New Title"))]

/-- A valid upload. -/
def sampleImage : ImageFile :=
  { name := "photo.jpg", is_image := true }

/-! ## Lemmas about the insertion-sort embedding of `order_by` -/

theorem mem_insertLe {α : Type} (le : α → α → Bool) (a x : α) :
    ∀ l : List α, x ∈ insertLe le a l ↔ x = a ∨ x ∈ l := by
  intro l
  induction l with
  | nil => simp [insertLe]
  | cons b bs ih =>
    by_cases h : le a b = true
    · simp [insertLe, h]
    · simp only [insertLe, if_neg h, List.mem_cons, ih]
      tauto

theorem insertLe_perm {α : Type} (le : α → α → Bool) (a : α) :
    ∀ l : List α, (insertLe le a l).Perm (a :: l) := by
  intro l
  induction l with
  | nil => simp [insertLe]
  | cons b bs ih =>
    by_cases h : le a b = true
    · simp [insertLe, h]
    · simp only [insertLe, if_neg h]
      exact (ih.cons b).trans (List.Perm.swap a b bs)

theorem sortBy_perm {α : Type} (le : α → α → Bool) :
    ∀ l : List α, (sortBy le l).Perm l := by
  intro l
  induction l with
  | nil => exact List.Perm.refl _
  | cons a as ih =>
    exact (insertLe_perm le a (sortBy le as)).trans (ih.cons a)

theorem pairwise_insertLe {α : Type} (le : α → α → Bool)
    (htrans : ∀ a b c, le a b = true → le b c = true → le a c = true)
    (htot : ∀ a b, le a b = true ∨ le b a = true) (a : α) :
    ∀ l : List α, l.Pairwise (fun x y => le x y = true) →
      (insertLe le a l).Pairwise (fun x y => le x y = true) := by
  intro l
  induction l with
  | nil => simp [insertLe]
  | cons b bs ih =>
    intro hl
    rcases List.pairwise_cons.mp hl with ⟨hb, hbs⟩
    by_cases h : le a b = true
    · simp only [insertLe, if_pos h]
      refine List.pairwise_cons.mpr ⟨?_, hl⟩
      intro y hy
      rcases List.mem_cons.mp hy with rfl | hy
      · exact h
      · exact htrans a b y h (hb y hy)
    · simp only [insertLe, if_neg h]
      refine List.pairwise_cons.mpr ⟨?_, ih hbs⟩
      intro y hy
      rcases (mem_insertLe le a y bs).mp hy with rfl | hy
      · rcases htot y b with hyb | hby
        · exact absurd hyb h
        · exact hby
      · exact hb y hy

theorem pairwise_sortBy {α : Type} (le : α → α → Bool)
    (htrans : ∀ a b c, le a b = true → le b c = true → le a c = true)
    (htot : ∀ a b, le a b = true ∨ le b a = true) :
    ∀ l : List α, (sortBy le l).Pairwise (fun x y => le x y = true) := by
  intro l
  induction l with
  | nil => simp [sortBy]
  | cons a as ih => exact pairwise_insertLe le htrans htot a (sortBy le as) ih

theorem mem_sortBy {α : Type} (le : α → α → Bool) (x : α) (l : List α) :
    x ∈ sortBy le l ↔ x ∈ l :=
  (sortBy_perm le l).mem_iff

/-! ## Lemmas about payload validation and scalar application -/

theorem payloadTags_of_not_mem {p : Payload} (h : Field.tags ∉ p.map Prod.fst) :
    payloadTags p = none := by
  have : p.find? (fun e => e.1 == Field.tags) = none := by
    rw [List.find?_eq_none]
    intro e he
    simp only [beq_iff_eq]
    intro hc
    exact h (List.mem_map.mpr ⟨e, he, hc⟩)
  unfold payloadTags
  rw [this]

theorem payloadIngredients_of_not_mem {p : Payload}
    (h : Field.ingredients ∉ p.map Prod.fst) : payloadIngredients p = none := by
  have : p.find? (fun e => e.1 == Field.ingredients) = none := by
    rw [List.find?_eq_none]
    intro e he
    simp only [beq_iff_eq]
    intro hc
    exact h (List.mem_map.mpr ⟨e, he, hc⟩)
  unfold payloadIngredients
  rw [this]

theorem applyField_id (r : Recipe) (e : Field × Value) : (applyField r e).id = r.id := by
  rcases e with ⟨ef, ev⟩
  cases ef <;> cases ev <;> rfl

theorem applyField_image (r : Recipe) (e : Field × Value) :
    (applyField r e).image = r.image := by
  rcases e with ⟨ef, ev⟩
  cases ef <;> cases ev <;> rfl

theorem applyField_tags (r : Recipe) (e : Field × Value) :
    (applyField r e).tags = r.tags := by
  rcases e with ⟨ef, ev⟩
  cases ef <;> cases ev <;> rfl

theorem applyField_ingredients (r : Recipe) (e : Field × Value) :
    (applyField r e).ingredients = r.ingredients := by
  rcases e with ⟨ef, ev⟩
  cases ef <;> cases ev <;> rfl

theorem applyField_frame (r : Recipe) (e : Field × Value) (f : Field)
    (h : e.1 ≠ f) : getField (applyField r e) f = getField r f := by
  rcases e with ⟨ef, ev⟩
  cases ef <;> cases f <;> first
    | exact absurd rfl h
    | (cases ev <;> rfl)

theorem foldl_applyField_frame (f : Field) :
    ∀ (entries : List (Field × Value)) (r : Recipe),
      (∀ e ∈ entries, e.1 ≠ f) →
      getField (entries.foldl applyField r) f = getField r f := by
  intro entries
  induction entries with
  | nil => intro r _; rfl
  | cons e es ih =>
    intro r h
    rw [List.foldl_cons, ih (applyField r e) (fun x hx => h x (List.mem_cons_of_mem e hx)),
      applyField_frame r e f (h e (List.mem_cons_self e es))]

theorem foldl_applyField_id :
    ∀ (entries : List (Field × Value)) (r : Recipe),
      (entries.foldl applyField r).id = r.id := by
  intro entries
  induction entries with
  | nil => intro r; rfl
  | cons e es ih => intro r; rw [List.foldl_cons, ih, applyField_id]

theorem foldl_applyField_image :
    ∀ (entries : List (Field × Value)) (r : Recipe),
      (entries.foldl applyField r).image = r.image := by
  intro entries
  induction entries with
  | nil => intro r; rfl
  | cons e es ih => intro r; rw [List.foldl_cons, ih, applyField_image]

theorem foldl_applyField_tags :
    ∀ (entries : List (Field × Value)) (r : Recipe),
      (entries.foldl applyField r).tags = r.tags := by
  intro entries
  induction entries with
  | nil => intro r; rfl
  | cons e es ih => intro r; rw [List.foldl_cons, ih, applyField_tags]

theorem foldl_applyField_ingredients :
    ∀ (entries : List (Field × Value)) (r : Recipe),
      (entries.foldl applyField r).ingredients = r.ingredients := by
  intro entries
  induction entries with
  | nil => intro r; rfl
  | cons e es ih => intro r; rw [List.foldl_cons, ih, applyField_ingredients]

theorem scalarApply_tags (r : Recipe) (p : Payload) : (scalarApply r p).tags = r.tags :=
  foldl_applyField_tags _ r

theorem scalarApply_ingredients (r : Recipe) (p : Payload) :
    (scalarApply r p).ingredients = r.ingredients :=
  foldl_applyField_ingredients _ r

theorem scalarApply_user (r : Recipe) (p : Payload) : (scalarApply r p).user = r.user := by
  have h := foldl_applyField_frame Field.user
    (p.filter (fun e => detailWritableScalars.contains e.1)) r ?_
  · unfold scalarApply
    simpa only [getField, Value.uid.injEq] using h
  · intro e he hc
    have := (List.mem_filter.mp he).2
    rw [hc] at this
    simp only [detailWritableScalars] at this
    exact absurd this (by decide)

theorem scalarApply_frame (r : Recipe) (p : Payload) (f : Field)
    (h : f ∉ p.map Prod.fst) : getField (scalarApply r p) f = getField r f := by
  apply foldl_applyField_frame
  intro e he hc
  exact h (List.mem_map.mpr ⟨e, (List.mem_filter.mp he).1, hc⟩)

/-! ## Lemmas about uniqueness invariants -/

theorem uniq_eq {tbl : AttrTable} (h : UniqNames tbl) {a b : OwnedName}
    (ha : a ∈ tbl.rows) (hb : b ∈ tbl.rows) (hu : a.user = b.user)
    (hn : a.name = b.name) : a = b := by
  by_contra hne
  have hsym : Symmetric (fun x y : OwnedName => ¬(x.user = y.user ∧ x.name = y.name)) := by
    intro x y hxy hc
    exact hxy ⟨hc.1.symm, hc.2.symm⟩
  exact List.Pairwise.forall hsym h ha hb hne ⟨hu, hn⟩

theorem find_attr_unique {u : Nat} {n : String} :
    ∀ rows : List OwnedName,
      rows.Pairwise (fun a b => ¬(a.user = b.user ∧ a.name = b.name)) →
      ∀ t ∈ rows, t.user = u → t.name = n →
      rows.find? (fun x => x.user == u && x.name == n) = some t := by
  intro rows
  induction rows with
  | nil => intro _ t ht; cases ht
  | cons hd rest ih =>
    intro hu t ht htu htn
    rcases List.pairwise_cons.mp hu with ⟨hh, hrest⟩
    by_cases hph : (hd.user == u && hd.name == n) = true
    · have hfind : List.find? (fun x => x.user == u && x.name == n) (hd :: rest) = some hd :=
        List.find?_cons_of_pos rest hph
      rw [hfind]
      rcases List.mem_cons.mp ht with rfl | htr
      · rfl
      · exfalso
        simp only [Bool.and_eq_true, beq_iff_eq] at hph
        exact hh t htr ⟨hph.1.trans htu.symm, hph.2.trans htn.symm⟩
    · have hfind : List.find? (fun x => x.user == u && x.name == n) (hd :: rest) =
          List.find? (fun x => x.user == u && x.name == n) rest :=
        List.find?_cons_of_neg rest hph
      rw [hfind]
      rcases List.mem_cons.mp ht with rfl | htr
      · exfalso
        apply hph
        simp [htu, htn]
      · exact ih hrest t htr htu htn

/-! ## Lemmas about get-or-create -/

theorem goc_mem {tbl : AttrTable} {u : Nat} {n : String} {t : OwnedName}
    (ht : t ∈ tbl.rows) : t ∈ (getOrCreateAttr tbl u n).1.rows := by
  unfold getOrCreateAttr
  cases h : tbl.rows.find? (fun x => x.user == u && x.name == n) with
  | some t0 => exact ht
  | none => exact List.mem_append_left _ ht

theorem goc_resolved (tbl : AttrTable) (u : Nat) (n : String) :
    ∃ t, t ∈ (getOrCreateAttr tbl u n).1.rows ∧ t.user = u ∧ t.name = n
      ∧ t.id = (getOrCreateAttr tbl u n).2 := by
  unfold getOrCreateAttr
  cases h : tbl.rows.find? (fun x => x.user == u && x.name == n) with
  | some t0 =>
    have hp := List.find?_some h
    simp only [Bool.and_eq_true, beq_iff_eq] at hp
    exact ⟨t0, List.mem_of_find?_eq_some h, hp.1, hp.2, rfl⟩
  | none =>
    exact ⟨⟨tbl.nextId, u, n⟩, List.mem_append_right _ (List.mem_singleton.mpr rfl),
      rfl, rfl, rfl⟩

theorem goc_new {tbl : AttrTable} {u : Nat} {n : String} :
    ∀ t' ∈ (getOrCreateAttr tbl u n).1.rows, t' ∉ tbl.rows →
      t'.user = u ∧ t'.name = n ∧ ∀ t ∈ tbl.rows, ¬(t.user = u ∧ t.name = n) := by
  unfold getOrCreateAttr
  cases h : tbl.rows.find? (fun x => x.user == u && x.name == n) with
  | some t0 =>
    intro t' ht' hnt'
    exact absurd ht' hnt'
  | none =>
    intro t' ht' hnt'
    rcases List.mem_append.mp ht' with hl | hr
    · exact absurd hl hnt'
    · have ht'' := List.mem_singleton.mp hr
      subst ht''
      refine ⟨rfl, rfl, ?_⟩
      intro t ht hc
      have := List.find?_eq_none.mp h t ht
      simp only [Bool.and_eq_true, beq_iff_eq] at this
      exact this ⟨hc.1, hc.2⟩

theorem goc_uniq {tbl : AttrTable} {u : Nat} {n : String} (h : UniqNames tbl) :
    UniqNames (getOrCreateAttr tbl u n).1 := by
  unfold getOrCreateAttr
  cases hf : tbl.rows.find? (fun x => x.user == u && x.name == n) with
  | some t0 => exact h
  | none =>
    unfold UniqNames at h ⊢
    rw [List.pairwise_append]
    refine ⟨h, List.pairwise_singleton _ _, ?_⟩
    intro a ha b hb hc
    have hb' := List.mem_singleton.mp hb
    subst hb'
    have := List.find?_eq_none.mp hf a ha
    simp only [Bool.and_eq_true, beq_iff_eq] at this
    exact this ⟨hc.1, hc.2⟩

theorem goc_reuse {tbl : AttrTable} {u : Nat} {n : String} (h : UniqNames tbl)
    {t : OwnedName} (ht : t ∈ tbl.rows) (hu : t.user = u) (hn : t.name = n) :
    getOrCreateAttr tbl u n = (tbl, t.id) := by
  unfold getOrCreateAttr
  rw [find_attr_unique tbl.rows h t ht hu hn]

/-! ## Lemmas about name-list resolution -/

theorem res_mem {u : Nat} :
    ∀ (l : List String) (tbl : AttrTable) {t : OwnedName},
      t ∈ tbl.rows → t ∈ (resolveAttrs tbl u l).1.rows := by
  intro l
  induction l with
  | nil => intro tbl t ht; exact ht
  | cons n ns ih =>
    intro tbl t ht
    exact ih (getOrCreateAttr tbl u n).1 (goc_mem ht)

theorem res_uniq {u : Nat} :
    ∀ (l : List String) (tbl : AttrTable),
      UniqNames tbl → UniqNames (resolveAttrs tbl u l).1 := by
  intro l
  induction l with
  | nil => intro tbl h; exact h
  | cons n ns ih => intro tbl h; exact ih (getOrCreateAttr tbl u n).1 (goc_uniq h)

theorem res_name {u : Nat} :
    ∀ (l : List String) (tbl : AttrTable), ∀ n ∈ l,
      ∃ t, t ∈ (resolveAttrs tbl u l).1.rows ∧ t.user = u ∧ t.name = n
        ∧ t.id ∈ (resolveAttrs tbl u l).2 := by
  intro l
  induction l with
  | nil => intro tbl n hn; cases hn
  | cons n' ns ih =>
    intro tbl n hn
    rcases List.mem_cons.mp hn with rfl | hns
    · rcases goc_resolved tbl u n with ⟨t, htm, htu, htn, hti⟩
      exact ⟨t, res_mem ns _ htm, htu, htn, by rw [hti]; exact List.mem_cons_self _ _⟩
    · rcases ih (getOrCreateAttr tbl u n').1 n hns with ⟨t, htm, htu, htn, hti⟩
      exact ⟨t, htm, htu, htn, List.mem_cons_of_mem _ hti⟩

theorem res_new {u : Nat} :
    ∀ (l : List String) (tbl : AttrTable),
      ∀ t' ∈ (resolveAttrs tbl u l).1.rows, t' ∉ tbl.rows →
        t'.user = u ∧ t'.name ∈ l ∧ ∀ t ∈ tbl.rows, ¬(t.user = u ∧ t.name = t'.name) := by
  intro l
  induction l with
  | nil => intro tbl t' ht' hnt'; exact absurd ht' hnt'
  | cons n ns ih =>
    intro tbl t' ht' hnt'
    by_cases hmid : t' ∈ (getOrCreateAttr tbl u n).1.rows
    · rcases goc_new t' hmid hnt' with ⟨h1, h2, h3⟩
      refine ⟨h1, by rw [h2]; exact List.mem_cons_self _ _, ?_⟩
      intro t ht hc
      exact h3 t ht ⟨hc.1, hc.2.trans h2⟩
    · rcases ih (getOrCreateAttr tbl u n).1 t' ht' hmid with ⟨h1, h2, h3⟩
      exact ⟨h1, List.mem_cons_of_mem _ h2, fun t ht hc => h3 t (goc_mem ht) hc⟩

theorem res_reuse {u : Nat} :
    ∀ (l : List String) (tbl : AttrTable), UniqNames tbl →
      ∀ t ∈ tbl.rows, t.user = u → t.name ∈ l →
        t.id ∈ (resolveAttrs tbl u l).2 := by
  intro l
  induction l with
  | nil => intro tbl _ t _ _ hn; cases hn
  | cons n ns ih =>
    intro tbl huniq t ht htu hn
    by_cases heq : t.name = n
    · have hre := goc_reuse huniq ht htu heq
      show t.id ∈ (getOrCreateAttr tbl u n).2 :: (resolveAttrs (getOrCreateAttr tbl u n).1 u ns).2
      rw [hre]
      exact List.mem_cons_self _ _
    · have hns : t.name ∈ ns := by
        rcases List.mem_cons.mp hn with h | h
        · exact absurd h heq
        · exact h
      exact List.mem_cons_of_mem _
        (ih (getOrCreateAttr tbl u n).1 (goc_uniq huniq) t (goc_mem ht) htu hns)

theorem res_ids {u : Nat} :
    ∀ (l : List String) (tbl : AttrTable), ∀ i ∈ (resolveAttrs tbl u l).2,
      ∃ t, t ∈ (resolveAttrs tbl u l).1.rows ∧ t.user = u ∧ t.name ∈ l ∧ t.id = i := by
  intro l
  induction l with
  | nil => intro tbl i hi; cases hi
  | cons n ns ih =>
    intro tbl i hi
    rcases List.mem_cons.mp hi with rfl | htail
    · rcases goc_resolved tbl u n with ⟨t, htm, htu, htn, hti⟩
      exact ⟨t, res_mem ns _ htm, htu, by rw [htn]; exact List.mem_cons_self _ _, hti⟩
    · rcases ih (getOrCreateAttr tbl u n).1 i htail with ⟨t, htm, htu, htn, hti⟩
      exact ⟨t, htm, htu, List.mem_cons_of_mem _ htn, hti⟩

theorem res_contract (u : Nat) (l : List String) (tbl : AttrTable)
    (h : UniqNames tbl) : AttrsResolved tbl (resolveAttrs tbl u l).1 u l := by
  refine ⟨fun t ht => res_mem l tbl ht, ?_, fun t' ht' hn => res_new l tbl t' ht' hn,
    res_uniq l tbl h⟩
  intro n hn
  rcases res_name l tbl n hn with ⟨t, htm, htu, htn, _⟩
  exact ⟨t, htm, htu, htn⟩

theorem res_ids_iff (u : Nat) (l : List String) (tbl : AttrTable)
    (h : UniqNames tbl) (i : Nat) :
    i ∈ (resolveAttrs tbl u l).2 ↔
      ∃ t, t ∈ (resolveAttrs tbl u l).1.rows ∧ t.id = i ∧ t.user = u ∧ t.name ∈ l := by
  constructor
  · intro hi
    rcases res_ids l tbl i hi with ⟨t, h1, h2, h3, h4⟩
    exact ⟨t, h1, h4, h2, h3⟩
  · rintro ⟨t, htm, hid, htu, htn⟩
    rcases res_name l tbl t.name htn with ⟨t0, h0m, h0u, h0n, h0i⟩
    have : t0 = t :=
      uniq_eq (res_uniq l tbl h) h0m htm (h0u.trans htu.symm) h0n
    rw [← hid, ← this]
    exact h0i

/-! ## Lemmas about the serializer write path -/

theorem applyTagsStep_some {db : DB} {u : Nat} {r : Recipe} {p : Payload}
    {l : List String} (h : payloadTags p = some l) :
    applyTagsStep db u r p =
      ({ db with tagTable := (resolveAttrs db.tagTable u l).1 },
       { r with tags := (resolveAttrs db.tagTable u l).2.dedup }) := by
  unfold applyTagsStep
  rw [h]

theorem applyTagsStep_none {db : DB} {u : Nat} {r : Recipe} {p : Payload}
    (h : payloadTags p = none) : applyTagsStep db u r p = (db, r) := by
  unfold applyTagsStep
  rw [h]

theorem applyIngredientsStep_some {db : DB} {u : Nat} {r : Recipe} {p : Payload}
    {l : List String} (h : payloadIngredients p = some l) :
    applyIngredientsStep db u r p =
      ({ db with ingTable := (resolveAttrs db.ingTable u l).1 },
       { r with ingredients := (resolveAttrs db.ingTable u l).2.dedup }) := by
  unfold applyIngredientsStep
  rw [h]

theorem applyIngredientsStep_none {db : DB} {u : Nat} {r : Recipe} {p : Payload}
    (h : payloadIngredients p = none) : applyIngredientsStep db u r p = (db, r) := by
  unfold applyIngredientsStep
  rw [h]

theorem applyTagsStep_ingTable (db : DB) (u : Nat) (r : Recipe) (p : Payload) :
    (applyTagsStep db u r p).1.ingTable = db.ingTable := by
  cases h : payloadTags p with
  | some l => rw [applyTagsStep_some h]
  | none => rw [applyTagsStep_none h]

theorem applyTagsStep_ingredientsField (db : DB) (u : Nat) (r : Recipe) (p : Payload) :
    (applyTagsStep db u r p).2.ingredients = r.ingredients := by
  cases h : payloadTags p with
  | some l => rw [applyTagsStep_some h]
  | none => rw [applyTagsStep_none h]

theorem applyTagsStep_userField (db : DB) (u : Nat) (r : Recipe) (p : Payload) :
    (applyTagsStep db u r p).2.user = r.user := by
  cases h : payloadTags p with
  | some l => rw [applyTagsStep_some h]
  | none => rw [applyTagsStep_none h]

theorem applyTagsStep_idField (db : DB) (u : Nat) (r : Recipe) (p : Payload) :
    (applyTagsStep db u r p).2.id = r.id := by
  cases h : payloadTags p with
  | some l => rw [applyTagsStep_some h]
  | none => rw [applyTagsStep_none h]

theorem applyTagsStep_imageField (db : DB) (u : Nat) (r : Recipe) (p : Payload) :
    (applyTagsStep db u r p).2.image = r.image := by
  cases h : payloadTags p with
  | some l => rw [applyTagsStep_some h]
  | none => rw [applyTagsStep_none h]

theorem applyIngredientsStep_tagTable (db : DB) (u : Nat) (r : Recipe) (p : Payload) :
    (applyIngredientsStep db u r p).1.tagTable = db.tagTable := by
  cases h : payloadIngredients p with
  | some l => rw [applyIngredientsStep_some h]
  | none => rw [applyIngredientsStep_none h]

theorem applyIngredientsStep_tagsField (db : DB) (u : Nat) (r : Recipe) (p : Payload) :
    (applyIngredientsStep db u r p).2.tags = r.tags := by
  cases h : payloadIngredients p with
  | some l => rw [applyIngredientsStep_some h]
  | none => rw [applyIngredientsStep_none h]

theorem applyIngredientsStep_userField (db : DB) (u : Nat) (r : Recipe) (p : Payload) :
    (applyIngredientsStep db u r p).2.user = r.user := by
  cases h : payloadIngredients p with
  | some l => rw [applyIngredientsStep_some h]
  | none => rw [applyIngredientsStep_none h]

theorem applyIngredientsStep_idField (db : DB) (u : Nat) (r : Recipe) (p : Payload) :
    (applyIngredientsStep db u r p).2.id = r.id := by
  cases h : payloadIngredients p with
  | some l => rw [applyIngredientsStep_some h]
  | none => rw [applyIngredientsStep_none h]

theorem applyIngredientsStep_imageField (db : DB) (u : Nat) (r : Recipe) (p : Payload) :
    (applyIngredientsStep db u r p).2.image = r.image := by
  cases h : payloadIngredients p with
  | some l => rw [applyIngredientsStep_some h]
  | none => rw [applyIngredientsStep_none h]

theorem applyValidated_user (db : DB) (u : Nat) (r : Recipe) (p : Payload) :
    (applyValidated db u r p).2.user = r.user := by
  unfold applyValidated
  rw [scalarApply_user, applyIngredientsStep_userField, applyTagsStep_userField]

theorem applyValidated_id (db : DB) (u : Nat) (r : Recipe) (p : Payload) :
    (applyValidated db u r p).2.id = r.id := by
  unfold applyValidated
  have h1 := foldl_applyField_id
    (p.filter (fun e => detailWritableScalars.contains e.1))
    (applyIngredientsStep (applyTagsStep db u r p).1 u (applyTagsStep db u r p).2 p).2
  unfold scalarApply
  rw [h1, applyIngredientsStep_idField, applyTagsStep_idField]

theorem applyValidated_image (db : DB) (u : Nat) (r : Recipe) (p : Payload) :
    (applyValidated db u r p).2.image = r.image := by
  unfold applyValidated
  have h1 := foldl_applyField_image
    (p.filter (fun e => detailWritableScalars.contains e.1))
    (applyIngredientsStep (applyTagsStep db u r p).1 u (applyTagsStep db u r p).2 p).2
  unfold scalarApply
  rw [h1, applyIngredientsStep_imageField, applyTagsStep_imageField]

theorem applyValidated_tags_of_some {db : DB} {u : Nat} {r : Recipe} {p : Payload}
    {l : List String} (h : payloadTags p = some l) :
    (applyValidated db u r p).2.tags = (resolveAttrs db.tagTable u l).2.dedup := by
  unfold applyValidated
  rw [scalarApply_tags, applyIngredientsStep_tagsField, applyTagsStep_some h]

theorem applyValidated_tagTable_of_some {db : DB} {u : Nat} {r : Recipe} {p : Payload}
    {l : List String} (h : payloadTags p = some l) :
    (applyValidated db u r p).1.tagTable = (resolveAttrs db.tagTable u l).1 := by
  unfold applyValidated
  rw [applyIngredientsStep_tagTable, applyTagsStep_some h]

theorem applyValidated_ingredients_of_some {db : DB} {u : Nat} {r : Recipe} {p : Payload}
    {l : List String} (h : payloadIngredients p = some l) :
    (applyValidated db u r p).2.ingredients =
      (resolveAttrs (applyTagsStep db u r p).1.ingTable u l).2.dedup := by
  unfold applyValidated
  rw [scalarApply_ingredients, applyIngredientsStep_some h]

theorem applyValidated_ingTable_of_some {db : DB} {u : Nat} {r : Recipe} {p : Payload}
    {l : List String} (h : payloadIngredients p = some l) :
    (applyValidated db u r p).1.ingTable =
      (resolveAttrs (applyTagsStep db u r p).1.ingTable u l).1 := by
  unfold applyValidated
  rw [applyIngredientsStep_some h]

theorem applyTagsStep_getField {db : DB} {u : Nat} {r : Recipe} {p : Payload}
    (f : Field) (hf : f ≠ Field.tags) :
    getField (applyTagsStep db u r p).2 f = getField r f := by
  cases h : payloadTags p with
  | some l =>
    rw [applyTagsStep_some h]
    cases f <;> first | exact absurd rfl hf | rfl
  | none => rw [applyTagsStep_none h]

theorem applyIngredientsStep_getField {db : DB} {u : Nat} {r : Recipe} {p : Payload}
    (f : Field) (hf : f ≠ Field.ingredients) :
    getField (applyIngredientsStep db u r p).2 f = getField r f := by
  cases h : payloadIngredients p with
  | some l =>
    rw [applyIngredientsStep_some h]
    cases f <;> first | exact absurd rfl hf | rfl
  | none => rw [applyIngredientsStep_none h]

/-! ## Lemmas about owner-scoped object lookup -/

theorem recipeGetObject_none {db : DB} {u i : Nat} (hids : UniqRecipeIds db)
    (hr : ∃ r ∈ db.recipes, r.id = i ∧ r.user ≠ u) :
    recipeGetObject db u i = none := by
  rcases hr with ⟨r, hrm, hri, hru⟩
  unfold recipeGetObject
  rw [List.find?_eq_none]
  intro x hx
  simp only [beq_iff_eq]
  intro hxi
  rcases List.mem_filter.mp hx with ⟨hxm, hxu⟩
  have hx_eq_r : x = r := by
    by_contra hne
    have hsym : Symmetric (fun a b : Recipe => a.id ≠ b.id) :=
      fun a b hab hc => hab hc.symm
    exact List.Pairwise.forall hsym hids hxm hrm hne (hxi.trans hri.symm)
  rw [hx_eq_r] at hxu
  simp only [beq_iff_eq] at hxu
  exact hru hxu

theorem attrGetObject_none {tbl : AttrTable} {u j : Nat} (hids : UniqAttrIds tbl)
    (ht : ∃ t ∈ tbl.rows, t.id = j ∧ t.user ≠ u) :
    attrGetObject tbl u j = none := by
  rcases ht with ⟨t, htm, hti, htu⟩
  unfold attrGetObject
  rw [List.find?_eq_none]
  intro x hx
  simp only [beq_iff_eq]
  intro hxi
  rcases List.mem_filter.mp hx with ⟨hxm, hxu⟩
  have hx_eq_t : x = t := by
    by_contra hne
    have hsym : Symmetric (fun a b : OwnedName => a.id ≠ b.id) :=
      fun a b hab hc => hab hc.symm
    exact List.Pairwise.forall hsym hids hxm htm hne (hxi.trans hti.symm)
  rw [hx_eq_t] at hxu
  simp only [beq_iff_eq] at hxu
  exact htu hxu

theorem recipeGetObject_isSome {db : DB} {u i : Nat}
    (hr : ∃ r ∈ db.recipes, r.id = i ∧ r.user = u) :
    ∃ r0, recipeGetObject db u i = some r0 ∧ r0 ∈ db.recipes ∧ r0.id = i := by
  rcases hr with ⟨r, hrm, hri, hru⟩
  have hsome : (recipeGetObject db u i).isSome := by
    unfold recipeGetObject
    rw [List.find?_isSome]
    exact ⟨r, List.mem_filter.mpr ⟨hrm, by simp [hru]⟩, by simp [hri]⟩
  rcases Option.isSome_iff_exists.mp hsome with ⟨r0, hr0⟩
  refine ⟨r0, hr0, ?_, ?_⟩
  · have := List.mem_of_find?_eq_some hr0
    exact (List.mem_filter.mp this).1
  · have := List.find?_some hr0
    simpa using this

/-! ## Lemmas about ordered list responses -/

theorem attrList_spec (tbl : AttrTable) (u : Nat) (b : Bool) :
    ((attrQueryset tbl u b).map toAttrItem).Perm
      ((tbl.rows.filter (fun t => t.user == u)).map toAttrItem)
    ∧ ((attrQueryset tbl u b).map toAttrItem).Pairwise (fun a c => c.name ≤ a.name)
    ∧ (∀ x ∈ (attrQueryset tbl u b).map toAttrItem,
        ∃ t ∈ tbl.rows, t.user = u ∧ x = toAttrItem t) := by
  refine ⟨?_, ?_, ?_⟩
  · exact (sortBy_perm _ _).map toAttrItem
  · have hp := pairwise_sortBy (fun a c : OwnedName => decide (c.name ≤ a.name))
      (fun a c d h1 h2 => by
        simp only [decide_eq_true_eq] at h1 h2 ⊢
        exact le_trans h2 h1)
      (fun a c => by
        simp only [decide_eq_true_eq]
        exact le_total c.name a.name)
      (tbl.rows.filter (fun t => t.user == u))
    exact List.pairwise_map.mpr (hp.imp (fun h => by simpa using h))
  · intro x hx
    rcases List.mem_map.mp hx with ⟨t, htm, rfl⟩
    unfold attrQueryset at htm
    rw [mem_sortBy] at htm
    rcases List.mem_filter.mp htm with ⟨hm, hu⟩
    exact ⟨t, hm, by simpa using hu, rfl⟩

theorem find_email_unique {email : String} :
    ∀ rows : List UserRow, rows.Pairwise (fun a b => a.email ≠ b.email) →
      ∀ us ∈ rows, us.email = email →
      rows.find? (fun x => x.email == email) = some us := by
  intro rows
  induction rows with
  | nil => intro _ us hus; cases hus
  | cons hd rest ih =>
    intro hu us hus huse
    rcases List.pairwise_cons.mp hu with ⟨hh, hrest⟩
    by_cases hph : (hd.email == email) = true
    · have hfind : List.find? (fun x => x.email == email) (hd :: rest) = some hd :=
        List.find?_cons_of_pos rest hph
      rw [hfind]
      rcases List.mem_cons.mp hus with rfl | hur
      · rfl
      · exfalso
        simp only [beq_iff_eq] at hph
        exact hh us hur (hph.trans huse.symm)
    · have hfind : List.find? (fun x => x.email == email) (hd :: rest) =
          List.find? (fun x => x.email == email) rest :=
        List.find?_cons_of_neg rest hph
      rw [hfind]
      rcases List.mem_cons.mp hus with rfl | hur
      · exact absurd (by simp [huse]) hph
      · exact ih hrest us hur huse

/-! ## Claim theorems -/

/-- C1: on every recipe create or update whose payload carries a `tags`
or `ingredients` list of names, each name is resolved to the existing
Tag/Ingredient owned by the requesting user when one exists (its id ends
up in the association set of the recipe), a new row of that user is
created only for names with no owner-scoped match, and no duplicate
(owner, name) row is ever created. -/
theorem nested_write_get_or_create (db : DB) (u : Nat) (r : Recipe) (p : Payload)
    (htag : UniqNames db.tagTable) (hing : UniqNames db.ingTable) :
    (∀ l, payloadTags p = some l →
      AttrsResolved db.tagTable (applyValidated db u r p).1.tagTable u l
      ∧ ∀ t ∈ db.tagTable.rows, t.user = u → t.name ∈ l →
          t.id ∈ (applyValidated db u r p).2.tags)
    ∧ (∀ l, payloadIngredients p = some l →
      AttrsResolved db.ingTable (applyValidated db u r p).1.ingTable u l
      ∧ ∀ t ∈ db.ingTable.rows, t.user = u → t.name ∈ l →
          t.id ∈ (applyValidated db u r p).2.ingredients) := by
  constructor
  · intro l h
    rw [applyValidated_tagTable_of_some h, applyValidated_tags_of_some h]
    refine ⟨res_contract u l db.tagTable htag, ?_⟩
    intro t ht htu htn
    exact List.mem_dedup.mpr (res_reuse l db.tagTable htag t ht htu htn)
  · intro l h
    rw [applyValidated_ingTable_of_some h, applyValidated_ingredients_of_some h,
      applyTagsStep_ingTable]
    refine ⟨res_contract u l db.ingTable hing, ?_⟩
    intro t ht htu htn
    exact List.mem_dedup.mpr (res_reuse l db.ingTable hing t ht htu htn)

/-- Closed instance of `nested_write_get_or_create`: creating `Pongal`
with tags `indian` (existing) and `breakfast` (new) against a store
where user 1 already owns tag `indian`. -/
theorem nested_write_get_or_create_instance :
    UniqNames nestedDB.tagTable ∧ UniqNames nestedDB.ingTable ∧
    (AttrsResolved nestedDB.tagTable
        (applyValidated nestedDB 1 (blankRecipe 12 1) nestedPayload).1.tagTable 1
        ["indian", "breakfast"]
      ∧ ∀ t ∈ nestedDB.tagTable.rows, t.user = 1 → t.name ∈ ["indian", "breakfast"] →
          t.id ∈ (applyValidated nestedDB 1 (blankRecipe 12 1) nestedPayload).2.tags) :=
  ⟨by decide, by decide,
   (nested_write_get_or_create nestedDB 1 (blankRecipe 12 1) nestedPayload
      (by decide) (by decide)).1 ["indian", "breakfast"] rfl⟩

/-- C2: whenever the payload carries a `tags`/`ingredients` list, the
association set of the recipe afterwards is exactly the set resolved from
that list — an id is associated iff it is the id of a row of the
requesting user whose name is in the list — and an empty list leaves
zero associations. -/
theorem nested_write_full_replace (db : DB) (u : Nat) (r : Recipe) (p : Payload)
    (htag : UniqNames db.tagTable) (hing : UniqNames db.ingTable) :
    (∀ l, payloadTags p = some l →
      (∀ i, i ∈ (applyValidated db u r p).2.tags ↔
        ∃ t ∈ (applyValidated db u r p).1.tagTable.rows,
          t.id = i ∧ t.user = u ∧ t.name ∈ l)
      ∧ (l = [] → (applyValidated db u r p).2.tags = []))
    ∧ (∀ l, payloadIngredients p = some l →
      (∀ i, i ∈ (applyValidated db u r p).2.ingredients ↔
        ∃ t ∈ (applyValidated db u r p).1.ingTable.rows,
          t.id = i ∧ t.user = u ∧ t.name ∈ l)
      ∧ (l = [] → (applyValidated db u r p).2.ingredients = [])) := by
  constructor
  · intro l h
    rw [applyValidated_tags_of_some h, applyValidated_tagTable_of_some h]
    constructor
    · intro i
      rw [List.mem_dedup]
      exact res_ids_iff u l db.tagTable htag i
    · rintro rfl
      rfl
  · intro l h
    rw [applyValidated_ingredients_of_some h, applyValidated_ingTable_of_some h,
      applyTagsStep_ingTable]
    constructor
    · intro i
      rw [List.mem_dedup]
      exact res_ids_iff u l db.ingTable hing i
    · rintro rfl
      rfl

/-- Closed instance of `nested_write_full_replace`: patching a recipe
that carries tag 1 with an empty `tags` list clears the association
set. -/
theorem nested_write_full_replace_instance :
    UniqNames nestedDB.tagTable ∧ UniqNames nestedDB.ingTable ∧
    ((∀ i, i ∈ (applyValidated nestedDB 1 taggedRecipe clearPayload).2.tags ↔
        ∃ t ∈ (applyValidated nestedDB 1 taggedRecipe clearPayload).1.tagTable.rows,
          t.id = i ∧ t.user = 1 ∧ t.name ∈ ([] : List String))
      ∧ (([] : List String) = [] →
          (applyValidated nestedDB 1 taggedRecipe clearPayload).2.tags = [])) :=
  ⟨by decide, by decide,
   (nested_write_full_replace nestedDB 1 taggedRecipe clearPayload
      (by decide) (by decide)).1 [] rfl⟩

/-- C10: a partial update changes only the supplied fields — every
payload-addressable attribute absent from the payload keeps its value,
and the id and image are never touched by the write path. -/
theorem partial_update_frame (db : DB) (u : Nat) (r : Recipe) (p : Payload)
    (f : Field) (hf : f ∉ p.map Prod.fst) :
    getField (applyValidated db u r p).2 f = getField r f
    ∧ (applyValidated db u r p).2.id = r.id
    ∧ (applyValidated db u r p).2.image = r.image := by
  refine ⟨?_, applyValidated_id db u r p, applyValidated_image db u r p⟩
  unfold applyValidated
  rw [scalarApply_frame _ _ _ hf]
  by_cases hft : f = Field.tags
  · subst hft
    rw [applyIngredientsStep_getField Field.tags (by decide),
      applyTagsStep_none (payloadTags_of_not_mem hf)]
  · by_cases hfi : f = Field.ingredients
    · subst hfi
      rw [applyIngredientsStep_none (payloadIngredients_of_not_mem hf),
        applyTagsStep_getField Field.ingredients (by decide)]
    · rw [applyIngredientsStep_getField f hfi, applyTagsStep_getField f hft]

/-- Closed instance of `partial_update_frame`: patching only the title
leaves the link (and id, image) unchanged. -/
theorem partial_update_frame_instance :
    Field.link ∉ patchPayload.map Prod.fst
    ∧ (getField (applyValidated nestedDB 1 sampleRecipe patchPayload).2 Field.link
        = getField sampleRecipe Field.link
      ∧ (applyValidated nestedDB 1 sampleRecipe patchPayload).2.id = sampleRecipe.id
      ∧ (applyValidated nestedDB 1 sampleRecipe patchPayload).2.image
        = sampleRecipe.image) :=
  ⟨by decide,
   partial_update_frame nestedDB 1 sampleRecipe patchPayload Field.link (by decide)⟩

/-- C5: the serializer write path never changes the owner of a recipe — on
update the owner stays the original one and on create it is the
authenticated requester — whatever the payload contains, a `user` entry
included (the field list keeps `user` out of the validated data and
`perform_create` saves with `user=self.request.user`). -/
theorem owner_never_from_payload (db : DB) (u : Nat) (r : Recipe) (p : Payload) :
    (applyValidated db u r p).2.user = r.user
    ∧ (recipeCreate db u p).2.user = u := by
  refine ⟨applyValidated_user db u r p, ?_⟩
  show (applyValidated db u (blankRecipe db.nextRecipeId u) p).2.user = u
  rw [applyValidated_user]
  rfl

/-- C4 counterexample: tag 7 belongs to user 2, yet a GET of
`/recipe/tag/7/` by user 1 answers 405 (the attribute viewsets expose no
retrieve action), not the 404 the claim asserts for every cross-user
retrieve. -/
theorem attr_detail_get_is_405 :
    attrRetrieveRequest crossDB.tagTable 1 7 = Except.error 405
    ∧ attrRetrieveRequest crossDB.tagTable 1 7 ≠ Except.error 404
    ∧ (∃ t ∈ crossDB.tagTable.rows, t.id = 7 ∧ t.user ≠ 1) := by
  refine ⟨rfl, ?_, by decide⟩
  intro h
  exact absurd (Except.error.inj h) (by decide)

/-- C4 (amended): a cross-user recipe retrieve/update/delete, and a
cross-user tag/ingredient update/delete, answer 404 (never 403) and
leave the store untouched; a tag/ingredient detail GET answers 405 for
every id because those viewsets expose no retrieve action. -/
theorem cross_user_access_not_found (db : DB) (u i : Nat) (p : Payload)
    (tbl : AttrTable) (j : Nat) (nm : String)
    (hids : UniqRecipeIds db) (hr : ∃ r ∈ db.recipes, r.id = i ∧ r.user ≠ u)
    (haids : UniqAttrIds tbl) (ht : ∃ t ∈ tbl.rows, t.id = j ∧ t.user ≠ u) :
    recipeRetrieveRequest db u i = Except.error 404
    ∧ recipeUpdateRequest db u i p = (404, db)
    ∧ recipeDestroyRequest db u i = (404, db)
    ∧ attrUpdateRequest tbl u j nm = (404, tbl)
    ∧ attrDestroyRequest tbl u j = (404, tbl)
    ∧ attrRetrieveRequest tbl u j = Except.error 405 := by
  have hro := recipeGetObject_none hids hr
  have hao := attrGetObject_none haids ht
  refine ⟨?_, ?_, ?_, ?_, ?_, rfl⟩
  · unfold recipeRetrieveRequest
    rw [hro]
  · unfold recipeUpdateRequest
    rw [hro]
  · unfold recipeDestroyRequest
    rw [hro]
  · unfold attrUpdateRequest
    rw [hao]
  · unfold attrDestroyRequest
    rw [hao]

/-- Closed instance of `cross_user_access_not_found`: user 1 targets
recipe 11 and tag 7 of user 2. -/
theorem cross_user_access_not_found_instance :
    UniqRecipeIds crossDB
    ∧ (∃ r ∈ crossDB.recipes, r.id = 11 ∧ r.user ≠ 1)
    ∧ UniqAttrIds crossDB.tagTable
    ∧ (∃ t ∈ crossDB.tagTable.rows, t.id = 7 ∧ t.user ≠ 1)
    ∧ (recipeRetrieveRequest crossDB 1 11 = Except.error 404
      ∧ recipeUpdateRequest crossDB 1 11 [] = (404, crossDB)
      ∧ recipeDestroyRequest crossDB 1 11 = (404, crossDB)
      ∧ attrUpdateRequest crossDB.tagTable 1 7 ("renamed") = (404, crossDB.tagTable)
      ∧ attrDestroyRequest crossDB.tagTable 1 7 = (404, crossDB.tagTable)
      ∧ attrRetrieveRequest crossDB.tagTable 1 7 = Except.error 405) :=
  ⟨by decide, by decide, by decide, by decide,
   cross_user_access_not_found crossDB 1 11 [] crossDB.tagTable 7 ("renamed")
     (by decide) (by decide) (by decide) (by decide)⟩

/-- C6: the recipe list response is a permutation of the recipes of the
requesting user rendered with the shallow serializer, ordered by id
descending (newest first, ids being assigned in creation order), every
item comes from an owned recipe, and the shallow rendering does not
depend on the description field. -/
theorem recipe_list_scoped_sorted_shallow (db : DB) (u : Nat) :
    (recipeListResponse db u).Perm
      ((db.recipes.filter (fun r => r.user == u)).map toListItem)
    ∧ (recipeListResponse db u).Pairwise (fun a b => b.id ≤ a.id)
    ∧ (∀ x ∈ recipeListResponse db u, ∃ r ∈ db.recipes, r.user = u ∧ x = toListItem r)
    ∧ (∀ (r : Recipe) (d : String), toListItem { r with description := d } = toListItem r) := by
  refine ⟨?_, ?_, ?_, fun r d => rfl⟩
  · exact (sortBy_perm _ _).map toListItem
  · have hp := pairwise_sortBy (fun a b : Recipe => decide (b.id ≤ a.id))
      (fun a b c h1 h2 => by
        simp only [decide_eq_true_eq] at h1 h2 ⊢
        exact le_trans h2 h1)
      (fun a b => by
        simp only [decide_eq_true_eq]
        exact le_total b.id a.id)
      (db.recipes.filter (fun r => r.user == u))
    exact List.pairwise_map.mpr (hp.imp (fun h => by simpa using h))
  · intro x hx
    rcases List.mem_map.mp hx with ⟨r, hrm, rfl⟩
    unfold recipeQueryset at hrm
    rw [mem_sortBy] at hrm
    rcases List.mem_filter.mp hrm with ⟨hm, hu⟩
    exact ⟨r, hm, by simpa using hu, rfl⟩

/-- C9: without the assigned-only flag the tag and ingredient list
responses are exactly the rows of the requesting user, rendered with id and name
and ordered by name descending. -/
theorem attr_list_scoped_sorted (db : DB) (u : Nat) :
    ((tagListResponse db u false).Perm
        ((db.tagTable.rows.filter (fun t => t.user == u)).map toAttrItem)
      ∧ (tagListResponse db u false).Pairwise (fun a b => b.name ≤ a.name)
      ∧ (∀ x ∈ tagListResponse db u false,
          ∃ t ∈ db.tagTable.rows, t.user = u ∧ x = toAttrItem t))
    ∧ ((ingredientListResponse db u false).Perm
        ((db.ingTable.rows.filter (fun t => t.user == u)).map toAttrItem)
      ∧ (ingredientListResponse db u false).Pairwise (fun a b => b.name ≤ a.name)
      ∧ (∀ x ∈ ingredientListResponse db u false,
          ∃ t ∈ db.ingTable.rows, t.user = u ∧ x = toAttrItem t)) :=
  ⟨attrList_spec db.tagTable u false, attrList_spec db.ingTable u false⟩

/-- C3 (code bug): with `assigned_only` set, the ingredient list still
contains `Turkey` (id 2), which is attached to no recipe of the store —
`get_queryset` never reads the flag, while the tests of the repo itself
(`test_filter_ingredients_assigned_to_recipes`,
`test_filtered_ingredients_unique`) require it to be honoured. -/
theorem assigned_only_filter_ignored :
    (⟨2, "Turkey"⟩ : AttrItem) ∈ ingredientListResponse assignedDB 1 true
    ∧ (∀ r ∈ assignedDB.recipes, 2 ∉ r.ingredients)
    ∧ (⟨2, 1, "Turkey"⟩ : OwnedName) ∈ assignedDB.ingTable.rows := by
  refine ⟨?_, by decide, by decide⟩
  unfold ingredientListResponse attrQueryset
  apply List.mem_map.mpr
  refine ⟨⟨2, 1, "Turkey"⟩, ?_, rfl⟩
  rw [mem_sortBy]
  decide

/-- C7: posting to the upload-image action of an owned, existing recipe
answers 400 and stores nothing when the payload is not a valid image,
and answers 200 with the accessible path of the stored file — also recorded
on the recipe row — when it is. -/
theorem upload_image_status (db : DB) (u i : Nat) (f : ImageFile)
    (hr : ∃ r ∈ db.recipes, r.id = i ∧ r.user = u) :
    (f.is_image = false → uploadImageRequest db u i f = (400, none, db))
    ∧ (f.is_image = true →
      (uploadImageRequest db u i f).1 = 200
      ∧ (uploadImageRequest db u i f).2.1 = some (storedImagePath f)
      ∧ ∃ r' ∈ (uploadImageRequest db u i f).2.2.recipes,
          r'.id = i ∧ r'.image = some (storedImagePath f)) := by
  rcases recipeGetObject_isSome hr with ⟨r0, hobj, hr0m, hr0i⟩
  constructor
  · intro hf
    unfold uploadImageRequest
    rw [hobj]
    simp [imagePayloadValid, hf]
  · intro hf
    have hreq : uploadImageRequest db u i f =
        (200, some (storedImagePath f),
         { db with
            recipes := db.recipes.map
              (fun x => if x.id == r0.id then { x with image := some (storedImagePath f) }
                else x) }) := by
      unfold uploadImageRequest
      rw [hobj]
      simp [imagePayloadValid, hf]
    rw [hreq]
    refine ⟨rfl, rfl, ⟨{ r0 with image := some (storedImagePath f) }, ?_, hr0i, rfl⟩⟩
    apply List.mem_map.mpr
    exact ⟨r0, hr0m, by simp⟩

/-- Closed instance of `upload_image_status`: a valid JPEG posted to
recipe 10 owned by user 1. -/
theorem upload_image_status_instance :
    (∃ r ∈ nestedDB.recipes, r.id = 10 ∧ r.user = 1)
    ∧ ((sampleImage.is_image = false →
        uploadImageRequest nestedDB 1 10 sampleImage = (400, none, nestedDB))
      ∧ (sampleImage.is_image = true →
        (uploadImageRequest nestedDB 1 10 sampleImage).1 = 200
        ∧ (uploadImageRequest nestedDB 1 10 sampleImage).2.1
            = some (storedImagePath sampleImage)
        ∧ ∃ r' ∈ (uploadImageRequest nestedDB 1 10 sampleImage).2.2.recipes,
            r'.id = 10 ∧ r'.image = some (storedImagePath sampleImage))) :=
  ⟨by decide, upload_image_status nestedDB 1 10 sampleImage (by decide)⟩

theorem createTokenRequest_of_found {db : DB} {email pw : String} (hpw : pw ≠ "")
    {us : UserRow} (hfind : db.users.find? (fun x => x.email == email) = some us) :
    createTokenRequest db email pw =
      (if (us.passwordHash == hashPassword pw) = true
        then Except.ok ("token:" ++ us.email) else Except.error 400) := by
  unfold createTokenRequest
  rw [if_neg hpw, hfind]

theorem createTokenRequest_of_missing {db : DB} {email pw : String} (hpw : pw ≠ "")
    (hfind : db.users.find? (fun x => x.email == email) = none) :
    createTokenRequest db email pw = Except.error 400 := by
  unfold createTokenRequest
  rw [if_neg hpw, hfind]

/-- C8: token issuance yields a token exactly when the password is
non-blank and some registered user has the given email with a matching
stored hash; a blank password is refused outright (for every store, so
before any lookup can matter); and every failure is a 400 with no token
in the response. -/
theorem token_issuance_iff (db : DB) (email pw : String) (he : UniqEmails db) :
    ((∃ tok, createTokenRequest db email pw = Except.ok tok) ↔
      (pw ≠ "" ∧ ∃ us ∈ db.users, us.email = email ∧ us.passwordHash = hashPassword pw))
    ∧ createTokenRequest db email ("") = Except.error 400
    ∧ (∀ c, createTokenRequest db email pw = Except.error c → c = 400) := by
  refine ⟨⟨?_, ?_⟩, by unfold createTokenRequest; simp, ?_⟩
  · rintro ⟨tok, htok⟩
    by_cases hpw : pw = ""
    · unfold createTokenRequest at htok
      rw [if_pos hpw] at htok
      cases htok
    · cases hfind : db.users.find? (fun x => x.email == email) with
      | none =>
        rw [createTokenRequest_of_missing hpw hfind] at htok
        cases htok
      | some us =>
        rw [createTokenRequest_of_found hpw hfind] at htok
        by_cases hhash : (us.passwordHash == hashPassword pw) = true
        · refine ⟨hpw, us, List.mem_of_find?_eq_some hfind, ?_, by simpa using hhash⟩
          have := List.find?_some hfind
          simpa using this
        · rw [if_neg hhash] at htok
          cases htok
  · rintro ⟨hpw, us, husm, huse, hush⟩
    rw [createTokenRequest_of_found hpw (find_email_unique db.users he us husm huse),
      if_pos (by simp [hush])]
    exact ⟨_, rfl⟩
  · intro c hc
    by_cases hpw : pw = ""
    · unfold createTokenRequest at hc
      rw [if_pos hpw] at hc
      exact (Except.error.inj hc).symm
    · cases hfind : db.users.find? (fun x => x.email == email) with
      | none =>
        rw [createTokenRequest_of_missing hpw hfind] at hc
        exact (Except.error.inj hc).symm
      | some us =>
        rw [createTokenRequest_of_found hpw hfind] at hc
        by_cases hh : (us.passwordHash == hashPassword pw) = true
        · rw [if_pos hh] at hc
          cases hc
        · rw [if_neg hh] at hc
          exact (Except.error.inj hc).symm

/-- Closed instance of `token_issuance_iff`: correct credentials of the
one registered user yield a token. -/
theorem token_issuance_iff_instance :
    UniqEmails tokenDB
    ∧ ∃ tok, createTokenRequest tokenDB ("test@example.com") ("testpassword123")
        = Except.ok tok :=
  ⟨by decide,
   ((token_issuance_iff tokenDB ("test@example.com") ("testpassword123") (by decide)).1).mpr
     (by decide)⟩

end RecipeApp
